import Mathlib

/-!
# random-api: request handlers of `main.go` and the dictionary store

A shallow embedding of the handlers `randInt`, `randWord`, `randDice`,
`randNanoId` and `randUuid` of `main.go` and of `dictionaries/dictionaries.go`.

Conventions of the embedding.

* Go `int` is the 64-bit signed integer: values are `Int`s inside
  `[minInt, maxInt]` and `+`, `-` wrap modulo `2^64` (`add`, `sub`).
* A Go `string` is a Lean `String`; `len` is the UTF-8 byte length.
* A handler works on a `Ctx` (status and body of the response being built,
  `200` and empty at the start) and ends in a `Ret`: it returned `nil`, it
  returned an error, or it panicked.  Every call to a library whose result the
  handler does not control (`rand.IntN`, `dice.Roll`, `gonanoid.ID`,
  `uuid.NewRandom`, `uuid.NewV7`) is recorded, in order, in `Run.calls`; what
  the library hands back is an argument of the handler.
* `make` panics as the runtime does on the 64-bit Linux targets: for a negative
  capacity and for one whose byte size exceeds `maxAlloc`.  Exhaustion of the
  machine's memory below that limit is a fatal error of the process, not a panic,
  and is not modelled.
-/

namespace RandomApi

/-! ## Machine integers -/

/-- Smallest Go `int` (64-bit). -/
def minInt : Int := -9223372036854775808

/-- Largest Go `int` (64-bit). -/
def maxInt : Int := 9223372036854775807

/-- Membership in the range of Go `int`. -/
def isInt (v : Int) : Prop := minInt ≤ v ∧ v ≤ maxInt

/-- Range membership is decidable. -/
instance (v : Int) : Decidable (isInt v) := by
  unfold isInt
  infer_instance

/-- Two's-complement wrap of a mathematical integer into the range of `int`. -/
def wrap (v : Int) : Int :=
  (v + 9223372036854775808) % 18446744073709551616 - 9223372036854775808

/-- Go `a - b` on `int`. -/
def sub (a b : Int) : Int := wrap (a - b)

/-- Go `a + b` on `int`. -/
def add (a b : Int) : Int := wrap (a + b)

/-! ## The fiber context, library calls and handler results -/

/-- Response under construction in a `*fiber.Ctx`. -/
structure Ctx where
  status : Nat
  body : String
deriving DecidableEq, Repr

/-- Context of a request no handler has touched yet: status 200, empty body. -/
def Ctx.fresh : Ctx := { status := 200, body := "" }

/-- Reason phrases of `utils.StatusMessage` for the codes this service uses. -/
def StatusMessage (status : Nat) : String :=
  if status = 200 then "OK"
  else if status = 400 then "Bad Request"
  else if status = 429 then "Too Many Requests"
  else if status = 500 then "Internal Server Error"
  else ""

/-- Method `c.SendString(s)`: the body becomes `s`; the returned error is always nil. -/
def Ctx.SendString (c : Ctx) (s : String) : Ctx := { c with body := s }

/-- Method `c.SendStatus(status)`: sets the status and, only while the body is still
empty, the reason phrase as body; the returned error is always nil. -/
def Ctx.SendStatus (c : Ctx) (status : Nat) : Ctx :=
  if c.body = "" then { status := status, body := StatusMessage status }
  else { c with status := status }

/-- External library calls a handler can make. -/
inductive Call where
  | IntN (n : Int)
  | Roll (input : String)
  | ID (size : Int)
  | NewRandom
  | NewV7
deriving DecidableEq, Repr

/-- How a handler invocation ended. -/
inductive Ret where
  | nil
  | err (msg : String)
  | panic (msg : String)
deriving DecidableEq, Repr

/-- Complete observation of one handler invocation. -/
structure Run where
  ctx : Ctx
  calls : List Call
  ret : Ret
deriving DecidableEq, Repr

/-- What the client receives, as `main` wires the application: a handler that returns
nil leaves its context as the response; a returned error goes to fiber's default error
handler (status 500, the error text as body); a panic is turned into such an error by
the `recover` middleware. -/
def respond (run : Run) : Ctx :=
  match run.ret with
  | Ret.nil => run.ctx
  | Ret.err msg => { status := 500, body := msg }
  | Ret.panic msg => { status := 500, body := msg }

/-- Method `c.Query(key, defaultValue)`: `raw` is the value of the key in the query
string (empty when the key is absent); an empty value yields the default. -/
def Query (raw : String) (defaultValue : String) : String :=
  if raw = "" then defaultValue else raw

/-- Method `c.QueryInt(key, defaultValue)`: `raw` is the integer the decimal text of the
key denotes (`none` when the key is absent or is not a decimal integer); `strconv.Atoi`
fails outside the range of `int`, and every failure yields the default. -/
def QueryInt (raw : Option Int) (defaultValue : Int) : Int :=
  match raw with
  | some v => if isInt v then v else defaultValue
  | none => defaultValue

/-- Function `rand.IntN(n)`: panics unless `n > 0`; otherwise hands back the sample `r`
the random source produced (a source only produces `0 ≤ r < n`). -/
def IntN (n : Int) (r : Int) : Except String Int :=
  if n ≤ 0 then Except.error "invalid argument to IntN" else Except.ok r

/-- Function `fmt.Sprint` on an `int`: its decimal text. -/
def Sprint (v : Int) : String := toString v

/-- The test pattern `^-?\d+$`: an optional minus sign followed by one or more digits. -/
def isDecimalInteger (s : String) : Bool :=
  match s.data with
  | [] => false
  | c :: cs =>
    if c = '-' then !cs.isEmpty && cs.all Char.isDigit
    else (c :: cs).all Char.isDigit

/-! ## Handler `randInt` -/

/-- Handler `randInt`; `qmin`, `qmax` are the query values of `min` and `max`, `r` is the
sample the random source hands back if `rand.IntN` is reached. -/
def randInt (qmin qmax : Option Int) (r : Int) : Run :=
  let min := QueryInt qmin 0
  let max := QueryInt qmax 100
  let c := Ctx.fresh
  if min ≥ max then
    let c := c.SendStatus 400
    { ctx := c.SendString
        ("min " ++ toString min ++ " should be less than max " ++ toString max),
      calls := [], ret := Ret.nil }
  else
    let offset := if min < 0 then min else 0
    let max1 := if min < 0 then sub max offset else max
    let min1 := if min < 0 then 0 else min
    match IntN (sub max1 min1) r with
    | Except.error p => { ctx := c, calls := [Call.IntN (sub max1 min1)], ret := Ret.panic p }
    | Except.ok v =>
      { ctx := c.SendString (Sprint (add (add v offset) min1)),
        calls := [Call.IntN (sub max1 min1)], ret := Ret.nil }

/-! ## Package `dictionaries` -/

/-- Text of the eight embedded files (`//go:embed animals.txt` and so on); the files
themselves are data outside the sources, so every result holds for any text. -/
structure Files where
  animals : String
  words : String
  cities : String
  countries : String
  fruits : String
  vegetables : String
  loremIpsum : String
  nouns : String

/-- Scan of `strings.Split` for a one-character separator: `cur` holds, reversed, the
characters of the piece being read. -/
def splitAux (sep : Char) : List Char → List Char → List String
  | [], cur => [String.mk cur.reverse]
  | c :: cs, cur =>
    if c = sep then String.mk cur.reverse :: splitAux sep cs []
    else splitAux sep cs (c :: cur)

/-- Function `strings.Split(s, sep)` for a separator of one character. -/
def Split (s : String) (sep : Char) : List String := splitAux sep s.data []

/-- The map literal `Dictionaries`, as its association list in source order. -/
def Dictionaries (f : Files) : List (String × List String) :=
  [ ("animals", Split f.animals '\n'),
    ("words", Split f.words '\n'),
    ("cities", Split f.cities '\n'),
    ("countries", Split f.countries '\n'),
    ("fruits", Split f.fruits '\n'),
    ("vegetables", Split f.vegetables '\n'),
    ("lorem-ipsum", Split f.loremIpsum '\n'),
    ("nouns", Split f.nouns '\n') ]

/-- The eight category names of the map literal. -/
def categories : List String :=
  ["animals", "words", "cities", "countries", "fruits", "vegetables", "lorem-ipsum", "nouns"]

/-- Function `mapKeys(m)`: `visit` lists the entries of `m` in the order `range m` yields
them (each entry once, in an order the language leaves open); every key is appended. -/
def mapKeys (visit : List (String × List String)) : List String :=
  visit.foldl (fun keys kv => keys ++ [kv.1]) []

/-- Package variable `Keys = mapKeys(Dictionaries)`, for the order `visit` in which the
map was ranged over at initialisation. -/
def Keys (visit : List (String × List String)) : List String := mapKeys visit

/-- Small stand-in for the embedded files, used to instantiate results. -/
def demoFiles : Files :=
  { animals := "cat\ndog\n", words := "a\nan\nthe\n", cities := "Oslo\n",
    countries := "Peru\n", fruits := "fig\n", vegetables := "kale\n",
    loremIpsum := "lorem\nipsum\n", nouns := "time\n" }

/-! ## Handler `randWord` -/

/-- Function `strings.Join(elems, sep)`. -/
def Join (elems : List String) (sep : String) : String :=
  match elems with
  | [] => ""
  | e :: rest => rest.foldl (fun b s => b ++ sep ++ s) e

/-- Scan of `strings.Count` for a non-empty `substr`: `skip` counts the characters of
the occurrence just found that are still to be passed over. -/
def countAux (substr : List Char) : List Char → Nat → Nat
  | [], _ => 0
  | c :: cs, skip =>
    if skip > 0 then countAux substr cs (skip - 1)
    else if substr.isPrefixOf (c :: cs) then 1 + countAux substr cs (substr.length - 1)
    else countAux substr cs 0

/-- Function `strings.Count(s, substr)`: the number of non-overlapping occurrences of
`substr` in `s`, and one more than the number of characters of `s` for an empty `substr`. -/
def Count (s substr : String) : Nat :=
  if substr = "" then s.length + 1 else countAux substr.data s.data 0

/-- Function `strings.Contains(s, substr)`. -/
def Contains (s substr : String) : Prop := substr.data <:+: s.data

/-- Containment is decidable, by search for the occurrence. -/
instance (s substr : String) : Decidable (Contains s substr) := by
  unfold Contains
  infer_instance

/-- A separator without border: no non-empty proper prefix of it is also a suffix of it
(every single character, `, ` and `->` are such; `aa` and `aba` are not). -/
def Unbordered (sep : String) : Prop :=
  ∀ k : Nat, k < sep.data.length → 0 < k →
    sep.data.take k ≠ sep.data.drop (sep.data.length - k)

/-- Absence of a border is decidable, by trying every length. -/
instance (sep : String) : Decidable (Unbordered sep) := by
  unfold Unbordered
  infer_instance

/-- Runtime constant `maxAlloc`, the largest allocation in bytes: `2^48` on the 64-bit
Linux targets. -/
def maxAlloc : Int := 281474976710656

/-- Built-in `make([]string, 0, cap)` (`runtime.makeslice` with the 16-byte element
`string`): a run-time panic for a negative capacity and for a capacity whose size
`16 * cap` exceeds `maxAlloc`, an empty slice otherwise. -/
def makeSlice (cap : Int) : Except String (List String) :=
  if cap < 0 ∨ 16 * cap > maxAlloc then
    Except.error "runtime error: makeslice: cap out of range"
  else Except.ok []

/-- Index expression `dict[v]`: a run-time panic outside `0 ≤ v < len(dict)`. -/
def index (dict : List String) (v : Int) : Except String String :=
  if v < 0 then Except.error "runtime error: index out of range"
  else match dict.get? v.toNat with
    | some w => Except.ok w
    | none => Except.error "runtime error: index out of range"

/-- State of the sampling loop of `randWord`. -/
structure Sampling where
  words : List String
  calls : List Call
  panic : Option String

/-- The loop `for i := 0; i < count; i++ { words = append(words, dict[rand.IntN(len(dict))]) }`
from the state at index `i`; `rs i` is the sample the source hands back in iteration `i`.
The loop ends when `i < count` fails or an iteration panics; it terminates because
`count - i` decreases. -/
def sampleWords (dict : List String) (rs : Nat → Int) (count : Int) (i : Nat)
    (s : Sampling) : Sampling :=
  if (i : Int) < count then
    match IntN dict.length (rs i) with
    | Except.error p =>
      { words := s.words, calls := s.calls ++ [Call.IntN dict.length], panic := some p }
    | Except.ok v =>
      match index dict v with
      | Except.error p =>
        { words := s.words, calls := s.calls ++ [Call.IntN dict.length], panic := some p }
      | Except.ok w =>
        sampleWords dict rs count (i + 1)
          { words := s.words ++ [w], calls := s.calls ++ [Call.IntN dict.length],
            panic := none }
  else s
termination_by (count - i).toNat
decreasing_by
  simp_wf
  omega

/-- Handler `randWord`; `rawCategory`, `qcount`, `rawSeparator` are the query values of
`category`, `count` and `separator`, `visit` is the order behind `Keys`, and `rs i` is the
sample the random source hands back in iteration `i` of the loop. -/
def randWord (f : Files) (visit : List (String × List String))
    (rawCategory : String) (qcount : Option Int) (rawSeparator : String)
    (rs : Nat → Int) : Run :=
  let category := Query rawCategory "words"
  let count := QueryInt qcount 1
  let separator := Query rawSeparator " "
  let c := Ctx.fresh
  match (Dictionaries f).lookup category with
  | none =>
    let c := c.SendStatus 400
    { ctx := c.SendString ("Invalid category, must be one of " ++ Join (Keys visit) ", "),
      calls := [], ret := Ret.nil }
  | some dict =>
    match makeSlice count with
    | Except.error p => { ctx := c, calls := [], ret := Ret.panic p }
    | Except.ok words =>
      let s := sampleWords dict rs count 0 { words := words, calls := [], panic := none }
      match s.panic with
      | some p => { ctx := c, calls := s.calls, ret := Ret.panic p }
      | none => { ctx := c.SendString (Join s.words separator), calls := s.calls, ret := Ret.nil }

/-! ## Handler `randDice` -/

/-- Value of `dice.Roll`: what its methods `Int()` and `String()` return. -/
structure RollResult where
  total : Int
  description : String

/-- Outcome of a call `dice.Roll(input)`: a result, a returned error, or a panic inside
the library. -/
inductive Rolled where
  | ok (result : RollResult)
  | error (err : String)
  | panic (msg : String)

/-- Handler `randDice`; `rawInput`, `rawOutput` are the query values of `input` and
`output`, and `Roll` is how `dice.Roll` behaves on a notation. -/
def randDice (Roll : String → Rolled) (rawInput rawOutput : String) : Run :=
  let input := Query rawInput "1d6"
  let output := Query rawOutput "sum"
  let c := Ctx.fresh
  if input.utf8ByteSize = 0 ∨ input.utf8ByteSize > 100 then
    let c := c.SendStatus 400
    { ctx := c.SendString "Invalid input", calls := [], ret := Ret.nil }
  else
    match Roll input with
    | Rolled.panic msg => { ctx := c, calls := [Call.Roll input], ret := Ret.panic msg }
    | Rolled.error err =>
      let c := c.SendStatus 400
      { ctx := c.SendString err, calls := [Call.Roll input], ret := Ret.nil }
    | Rolled.ok result =>
      if output = "sum" then
        { ctx := c.SendString (Sprint result.total), calls := [Call.Roll input],
          ret := Ret.nil }
      else if output = "full" then
        { ctx := c.SendString result.description, calls := [Call.Roll input],
          ret := Ret.nil }
      else
        { ctx := c, calls := [Call.Roll input],
          ret := Ret.err "invalid output, must be sum or full" }

/-! ## Handler `randNanoId` -/

/-- Handler `randNanoId`; `qsize` is the query value of `size` and `ID` is what
`gonanoid.ID` answers for a size. -/
def randNanoId (ID : Int → Except String String) (qsize : Option Int) : Run :=
  let size := QueryInt qsize 21
  let c := Ctx.fresh
  if size < 1 ∨ size > 200 then
    let c := c.SendStatus 400
    { ctx := c.SendString "Invalid size, must be between 1 and 200", calls := [],
      ret := Ret.nil }
  else
    match ID size with
    | Except.error err => { ctx := c, calls := [Call.ID size], ret := Ret.err err }
    | Except.ok id => { ctx := c.SendString id, calls := [Call.ID size], ret := Ret.nil }

/-! ## Handler `randUuid` -/

/-- Handler `randUuid` over the identifier type `U` of package `uuid`; `rawVersion` is the
query value of `version`, `NewRandom` and `NewV7` are what the two generators answer when
called, and `str` is the method `String()`.  The `switch` either picks a generator or
answers 400; the picked identifier is sent after the `switch`. -/
def randUuid {U : Type} (NewRandom NewV7 : Except String U) (str : U → String)
    (rawVersion : String) : Run :=
  let version := Query rawVersion "4"
  let c := Ctx.fresh
  let picked : Option (Except String U × Call) :=
    if version = "4" then some (NewRandom, Call.NewRandom)
    else if version = "7" then some (NewV7, Call.NewV7)
    else none
  match picked with
  | none =>
    let c := c.SendStatus 400
    { ctx := c.SendString "Invalid UUID version, must be 4 or 7", calls := [],
      ret := Ret.nil }
  | some (Except.error err, call) => { ctx := c, calls := [call], ret := Ret.err err }
  | some (Except.ok id, call) =>
    { ctx := c.SendString (str id), calls := [call], ret := Ret.nil }

/-! ## Facts about the library models -/

theorem QueryInt_isInt (raw : Option Int) (d : Int) (hd : isInt d) : isInt (QueryInt raw d) := by
  unfold QueryInt
  cases raw with
  | none => exact hd
  | some v =>
    by_cases h : isInt v
    · simp [h]
    · simp [h, hd]

theorem isInt_zero : isInt 0 := by decide

theorem isInt_hundred : isInt 100 := by decide

theorem digitChar_isDigit (n : Nat) (h : n < 10) : (Nat.digitChar n).isDigit = true := by
  interval_cases n <;> decide

theorem toDigitsCore_isDigit (fuel n : Nat) (ds : List Char)
    (hds : ∀ c ∈ ds, c.isDigit = true) :
    ∀ c ∈ Nat.toDigitsCore 10 fuel n ds, c.isDigit = true := by
  induction fuel generalizing n ds with
  | zero => simpa [Nat.toDigitsCore] using hds
  | succ k ih =>
    unfold Nat.toDigitsCore
    have hd : (Nat.digitChar (n % 10)).isDigit = true := digitChar_isDigit _ (Nat.mod_lt _ (by decide))
    have hds2 : ∀ c ∈ Nat.digitChar (n % 10) :: ds, c.isDigit = true := by
      intro c hc
      rcases List.mem_cons.mp hc with h | h
      · exact h ▸ hd
      · exact hds c h
    simp only []
    split
    · exact hds2
    · exact ih _ _ hds2

theorem toDigitsCore_ne_nil (fuel n : Nat) (ds : List Char) :
    Nat.toDigitsCore 10 (fuel + 1) n ds ≠ [] := by
  induction fuel generalizing n ds with
  | zero =>
    unfold Nat.toDigitsCore
    simp only []
    split <;> simp [Nat.toDigitsCore]
  | succ k ih =>
    unfold Nat.toDigitsCore
    simp only []
    split
    · simp
    · exact ih _ _

theorem repr_digits (n : Nat) : (Nat.repr n).data ≠ [] ∧ ∀ c ∈ (Nat.repr n).data, c.isDigit = true := by
  unfold Nat.repr Nat.toDigits
  simp only [List.asString]
  exact ⟨toDigitsCore_ne_nil _ _ _, toDigitsCore_isDigit _ _ _ (by simp)⟩

theorem isDecimalInteger_toString (v : Int) : isDecimalInteger (toString v) = true := by
  cases v with
  | ofNat m =>
    obtain ⟨h1, h2⟩ := repr_digits m
    show isDecimalInteger (Nat.repr m) = true
    unfold isDecimalInteger
    cases hd : (Nat.repr m).data with
    | nil => exact absurd hd h1
    | cons c cs =>
      rw [hd] at h2
      have hc : c.isDigit = true := h2 c (by simp)
      have hne : c ≠ '-' := by
        intro h
        rw [h] at hc
        exact absurd hc (by decide)
      simp only [hne, if_false]
      exact List.all_eq_true.mpr h2
  | negSucc m =>
    obtain ⟨h1, h2⟩ := repr_digits (m + 1)
    show isDecimalInteger ("-" ++ Nat.repr (m + 1)) = true
    unfold isDecimalInteger
    have : ("-" ++ Nat.repr (m + 1)).data = '-' :: (Nat.repr (m + 1)).data := by
      simp [String.data_append]
    rw [this]
    simp only [if_true]
    have hne : (Nat.repr (m + 1)).data.isEmpty = false := by
      cases hd : (Nat.repr (m + 1)).data with
      | nil => exact absurd hd h1
      | cons c cs => rfl
    simp [hne]
    exact h2

/-! ## Facts about strings and the dictionary store -/

theorem splitAux_ne_nil (sep : Char) (s cur : List Char) : splitAux sep s cur ≠ [] := by
  induction s generalizing cur with
  | nil => simp [splitAux]
  | cons c cs ih =>
    unfold splitAux
    by_cases h : c = sep
    · simp [h]
    · simp only [h, if_false]
      exact ih _

theorem Split_ne_nil (s : String) (sep : Char) : Split s sep ≠ [] :=
  splitAux_ne_nil sep s.data []

/-- Every list stored in `Dictionaries` is non-empty, whatever the embedded files hold. -/
theorem Dictionaries_lookup_ne_nil (f : Files) (category : String) (dict : List String)
    (h : (Dictionaries f).lookup category = some dict) : dict ≠ [] := by
  unfold Dictionaries at h
  simp only [List.lookup] at h
  repeat' split at h
  all_goals first
    | (cases h; exact Split_ne_nil _ _)
    | exact absurd h (by simp)

theorem Dictionaries_keys (f : Files) : (Dictionaries f).map Prod.fst = categories := rfl

theorem lookup_eq_none_of_not_mem {β : Type} (l : List (String × β)) (k : String)
    (h : k ∉ l.map Prod.fst) : l.lookup k = none := by
  induction l with
  | nil => rfl
  | cons p ps ih =>
    obtain ⟨a, b⟩ := p
    simp only [List.map_cons, List.mem_cons, not_or] at h
    have hne : (k == a) = false := by simpa using h.1
    simp [List.lookup, hne, ih h.2]

theorem mapKeys_foldl (visit : List (String × List String)) (acc : List String) :
    visit.foldl (fun keys kv => keys ++ [kv.1]) acc = acc ++ visit.map Prod.fst := by
  induction visit generalizing acc with
  | nil => simp
  | cons p ps ih => simp [List.foldl, ih]

theorem mapKeys_eq (visit : List (String × List String)) :
    mapKeys visit = visit.map Prod.fst := by
  unfold mapKeys
  rw [mapKeys_foldl]
  simp

theorem Join_foldl_data (rest : List String) (sep b : String) :
    (rest.foldl (fun b s => b ++ sep ++ s) b).data
      = b.data ++ (rest.map (fun s => sep.data ++ s.data)).flatten := by
  induction rest generalizing b with
  | nil => simp
  | cons e es ih => simp [List.foldl, ih, String.data_append]

theorem Join_cons_data (e : String) (rest : List String) (sep : String) :
    (Join (e :: rest) sep).data
      = e.data ++ (rest.map (fun s => sep.data ++ s.data)).flatten := by
  unfold Join
  exact Join_foldl_data rest sep e

theorem countAux_skip (substr xs ys : List Char) :
    countAux substr (xs ++ ys) xs.length = countAux substr ys 0 := by
  induction xs with
  | nil => rfl
  | cons x xs ih =>
    simp only [List.cons_append, List.length_cons]
    rw [countAux]
    simp [ih]

theorem countAux_at_occurrence (substr rest : List Char) (hne : substr ≠ []) :
    countAux substr (substr ++ rest) 0 = 1 + countAux substr rest 0 := by
  cases substr with
  | nil => exact absurd rfl hne
  | cons c cs =>
    have hp : (c :: cs).isPrefixOf (c :: (cs ++ rest)) = true := by
      have : (c :: cs) <+: (c :: cs) ++ rest := List.prefix_append _ _
      simp [this]
    simp only [List.cons_append]
    rw [countAux]
    simp only [gt_iff_lt, Nat.lt_irrefl, if_false, hp, if_true, List.length_cons,
      Nat.add_sub_cancel]
    rw [countAux_skip]

/-- For any non-empty word `w`, joining `w` and `w` with the separator `ww` gives a body
with two occurrences of the separator, although `w` does not contain it. -/
theorem Count_Join_doubled (w : String) (hw : w ≠ "") :
    ¬ Contains w (w ++ w) ∧ Count (Join [w, w] (w ++ w)) (w ++ w) = 2 := by
  have hd : w.data ≠ [] := by
    intro h
    apply hw
    cases w
    simp only at h
    simp [h]
  have hlen : 0 < w.data.length := List.length_pos.mpr hd
  constructor
  · unfold Contains
    intro h
    have := h.length_le
    rw [String.data_append, List.length_append] at this
    omega
  · have hne : w ++ w ≠ "" := by
      intro h
      have := congrArg String.data h
      simp [String.data_append] at this
      exact hd this
    have hne2 : w.data ++ w.data ≠ [] := by simp [hd]
    unfold Count
    simp only [hne, if_false]
    have hj : (Join [w, w] (w ++ w)).data
        = (w.data ++ w.data) ++ ((w.data ++ w.data) ++ []) := by
      rw [Join_cons_data]
      simp [String.data_append]
    rw [hj, String.data_append, countAux_at_occurrence _ _ hne2,
      countAux_at_occurrence _ _ hne2]
    simp [countAux]

/-- The capacities `make([]string, 0, cap)` accepts: `0 ≤ cap ≤ 2^44`. -/
theorem makeSlice_ok_iff (cap : Int) :
    makeSlice cap = Except.ok [] ↔ (0 ≤ cap ∧ cap ≤ 17592186044416) := by
  unfold makeSlice maxAlloc
  by_cases h : cap < 0 ∨ 16 * cap > 281474976710656
  · simp only [h, if_true]
    constructor
    · intro hc
      exact absurd hc (by simp)
    · intro hc
      omega
  · simp only [h, if_false, true_iff]
    omega

theorem Query_ne_empty (raw d : String) (hd : d ≠ "") : Query raw d ≠ "" := by
  unfold Query
  by_cases h : raw = ""
  · simp [h, hd]
  · simp [h]

theorem data_ne_nil (w : String) (hw : w ≠ "") : w.data ≠ [] := by
  intro h
  apply hw
  cases w
  simp only at h
  simp [h]

/-- No occurrence of a borderless `sep` starts inside a word `w` that does not contain it,
when the word is followed by nothing or by a copy of `sep`. -/
theorem no_occurrence_across (sep w T : List Char)
    (hunb : ∀ k : Nat, k < sep.length → 0 < k → sep.take k ≠ sep.drop (sep.length - k))
    (hw : ¬ sep <:+: w) (hT : T = [] ∨ sep <+: T)
    (u : List Char) (hu : u ≠ []) (hsuf : u <:+ w) : ¬ sep <+: u ++ T := by
  intro hp
  have hulen : 0 < u.length := List.length_pos.mpr hu
  by_cases hle : sep.length ≤ u.length
  · have h1 : sep <+: u := List.prefix_of_prefix_length_le hp (List.prefix_append u T) hle
    exact hw (h1.isInfix.trans hsuf.isInfix)
  · have hlt : u.length < sep.length := by omega
    have h1 : u <+: sep :=
      List.prefix_of_prefix_length_le (List.prefix_append u T) hp (by omega)
    obtain ⟨v, hv⟩ := h1
    have hvlen : u.length + v.length = sep.length := by
      rw [← hv, List.length_append]
    have hvT : v <+: T := by
      rw [← hv] at hp
      exact (List.prefix_append_right_inj u).mp hp
    have hsepT : sep <+: T := by
      rcases hT with h | h
      · subst h
        have := List.eq_nil_of_prefix_nil hvT
        subst this
        simp at hvlen
        omega
      · exact h
    have hvpre : v <+: sep := List.prefix_of_prefix_length_le hvT hsepT (by omega)
    have hvsuf : v <:+ sep := ⟨u, hv⟩
    have e1 : v = sep.take v.length := List.prefix_iff_eq_take.mp hvpre
    have e2 : v = sep.drop (sep.length - v.length) := List.suffix_iff_eq_drop.mp hvsuf
    exact hunb v.length (by omega) (by omega) (e1.symm.trans e2)

/-- The scan of `strings.Count` passes over a stretch in which no occurrence starts. -/
theorem countAux_pass (sep u T : List Char)
    (h : ∀ x : List Char, x ≠ [] → x <:+ u → ¬ sep <+: x ++ T) :
    countAux sep (u ++ T) 0 = countAux sep T 0 := by
  induction u with
  | nil => rfl
  | cons c cs ih =>
    have hno : sep.isPrefixOf (c :: (cs ++ T)) = false := by
      cases hb : sep.isPrefixOf (c :: (cs ++ T)) with
      | false => rfl
      | true =>
        exact absurd (List.isPrefixOf_iff_prefix.mp hb)
          (h (c :: cs) (by simp) (List.suffix_refl _))
    simp only [List.cons_append]
    rw [countAux]
    simp only [gt_iff_lt, Nat.lt_irrefl, if_false, hno, Bool.false_eq_true]
    exact ih (fun x hx hs => h x hx (hs.trans (List.suffix_cons c cs)))

/-- Occurrences of a borderless separator in joined words that do not contain it. -/
theorem countAux_joined (sep : List Char) (hne : sep ≠ [])
    (hunb : ∀ k : Nat, k < sep.length → 0 < k → sep.take k ≠ sep.drop (sep.length - k))
    (w : List Char) (rest : List (List Char))
    (hall : ∀ x ∈ w :: rest, ¬ sep <:+: x) :
    countAux sep (w ++ (rest.map (fun x => sep ++ x)).flatten) 0 = rest.length := by
  induction rest generalizing w with
  | nil =>
    simp only [List.map_nil, List.flatten_nil, List.length_nil]
    rw [countAux_pass sep w []
      (no_occurrence_across sep w [] hunb (hall w (by simp)) (Or.inl rfl))]
    rfl
  | cons w2 rest2 ih =>
    simp only [List.map_cons, List.flatten_cons, List.length_cons]
    rw [countAux_pass sep w _
      (no_occurrence_across sep w _ hunb (hall w (by simp))
        (Or.inr (by rw [List.append_assoc]; exact List.prefix_append _ _))),
      List.append_assoc, countAux_at_occurrence sep _ hne,
      ih w2 (fun x hx => hall x (by simp [List.mem_cons] at hx ⊢; tauto))]
    omega

/-- Number of occurrences of a borderless separator in a joined list none of whose words
contains it. -/
theorem Count_Join_unbordered (sep : String) (hne : sep ≠ "") (hunb : Unbordered sep)
    (words : List String) (hwne : words ≠ [])
    (hall : ∀ w ∈ words, ¬ Contains w sep) :
    Count (Join words sep) sep = words.length - 1 := by
  cases words with
  | nil => exact absurd rfl hwne
  | cons e rest =>
    unfold Count
    simp only [hne, if_false]
    rw [Join_cons_data]
    have hmap : rest.map (fun s => sep.data ++ s.data)
        = (rest.map String.data).map (fun x => sep.data ++ x) := by
      simp [List.map_map]
    rw [hmap, countAux_joined sep.data (data_ne_nil sep hne) hunb e.data
      (rest.map String.data)]
    · simp
    · intro x hx
      rcases List.mem_cons.mp hx with h | h
      · subst h
        exact hall e (by simp)
      · obtain ⟨y, hy, rfl⟩ := List.mem_map.mp h
        exact hall y (by simp [hy])

/-- Each occurrence counted takes up the length of the separator. -/
theorem countAux_le (sep : List Char) (s : List Char) (skip : Nat) :
    countAux sep s skip = 0 ∨ sep.length * countAux sep s skip + skip ≤ s.length := by
  induction s generalizing skip with
  | nil => left; rfl
  | cons c cs ih =>
    rw [countAux]
    by_cases hs : skip > 0
    · simp only [hs, if_true]
      rcases ih (skip - 1) with h | h
      · left; exact h
      · right
        simp only [List.length_cons]
        omega
    · simp only [hs, if_false]
      have h0 : skip = 0 := by omega
      cases hp : sep.isPrefixOf (c :: cs) with
      | true =>
        simp only [if_true]
        right
        have hlen : sep.length ≤ (c :: cs).length :=
          (List.isPrefixOf_iff_prefix.mp hp).length_le
        simp only [List.length_cons] at hlen ⊢
        rcases ih (sep.length - 1) with h | h
        · rw [h]
          omega
        · rw [Nat.mul_add]
          omega
      | false =>
        simp only [Bool.false_eq_true, if_false]
        rcases ih 0 with h | h
        · left; exact h
        · right
          simp only [List.length_cons]
          omega

/-- An occurrence anywhere makes the count positive. -/
theorem countAux_pos (sep : List Char) (hne : sep ≠ []) (s : List Char) (h : sep <:+: s) :
    1 ≤ countAux sep s 0 := by
  induction s with
  | nil => exact absurd (List.eq_nil_of_infix_nil h) hne
  | cons c cs ih =>
    rw [countAux]
    simp only [gt_iff_lt, Nat.lt_irrefl, if_false]
    cases hp : sep.isPrefixOf (c :: cs) with
    | true =>
      simp only [if_true]
      omega
    | false =>
      simp only [Bool.false_eq_true, if_false]
      rcases List.infix_cons_iff.mp h with h1 | h1
      · rw [List.isPrefixOf_iff_prefix.mpr h1] at hp
        exact absurd hp (by simp)
      · exact ih h1

theorem overlap_regroup (sep x b y z : List Char) (hx : x ++ b = sep) (hy : b ++ y = sep)
    (hz : y = z ++ b) : x ++ (sep ++ y) = sep ++ (z ++ sep) := by
  have h1 : x ++ (sep ++ y) = (x ++ b) ++ (y ++ y) := by
    rw [← hy]
    simp only [List.append_assoc]
  have h2 : y ++ y = z ++ (b ++ y) := by
    nth_rewrite 1 [hz]
    simp only [List.append_assoc]
  rw [h1, hx, h2, hy]

/-- A separator with a border of at most half its length: joining its part before the
final border and its part after the initial border gives two occurrences. -/
theorem countAux_bordered (sep : List Char) (k : Nat) (hk0 : 0 < k)
    (hk : 2 * k ≤ sep.length) (hb : sep.take k = sep.drop (sep.length - k)) :
    ¬ sep <:+: sep.take (sep.length - k) ∧ ¬ sep <:+: sep.drop k
    ∧ countAux sep (sep.take (sep.length - k) ++ (sep ++ sep.drop k)) 0 = 2 := by
  have hne : sep ≠ [] := by
    intro h
    rw [h] at hk
    simp at hk
    omega
  refine ⟨?_, ?_, ?_⟩
  · intro h
    have := h.length_le
    simp at this
    omega
  · intro h
    have := h.length_le
    simp at this
    omega
  · have e1 : sep.take (sep.length - k) ++ sep.take k = sep := by
      rw [hb]
      exact List.take_append_drop _ _
    have e2 : sep.take k ++ sep.drop k = sep := List.take_append_drop _ _
    have e3 : sep.drop k = (sep.take (sep.length - k)).drop k ++ sep.take k := by
      conv_lhs => rw [← e1]
      rw [List.drop_append_of_le_length (by simp; omega)]
    rw [overlap_regroup sep _ _ _ _ e1 e2 e3, countAux_at_occurrence sep _ hne]
    have hpos := countAux_pos sep hne ((sep.take (sep.length - k)).drop k ++ sep)
      (List.suffix_append _ _).isInfix
    have hle := countAux_le sep ((sep.take (sep.length - k)).drop k ++ sep) 0
    have hlen : ((sep.take (sep.length - k)).drop k ++ sep).length < 2 * sep.length := by
      simp
      omega
    rcases hle with h | h
    · omega
    · have : countAux sep ((sep.take (sep.length - k)).drop k ++ sep) 0 < 2 := by
        by_contra hc
        have h2 : 2 ≤ countAux sep ((sep.take (sep.length - k)).drop k ++ sep) 0 := by omega
        have := Nat.mul_le_mul_left sep.length h2
        omega
      omega

/-- A list with a border has one of at most half its length. -/
theorem short_border (sep : List Char) (k : Nat) (hk0 : 0 < k) (hk : k < sep.length)
    (hb : sep.take k = sep.drop (sep.length - k)) :
    ∃ j : Nat, 0 < j ∧ 2 * j ≤ sep.length ∧ sep.take j = sep.drop (sep.length - j) := by
  induction k using Nat.strong_induction_on with
  | _ k ih =>
    by_cases h2 : 2 * k ≤ sep.length
    · exact ⟨k, hk0, h2, hb⟩
    · have hget : ∀ i : Nat, i < k → sep[i]? = sep[sep.length - k + i]? := by
        intro i hi
        have := congrArg (fun l => l[i]?) hb
        simp only [List.getElem?_take, List.getElem?_drop] at this
        simpa [hi] using this
      apply ih (2 * k - sep.length) (by omega) (by omega) (by omega)
      apply List.ext_getElem?
      intro i
      simp only [List.getElem?_take, List.getElem?_drop]
      by_cases hi : i < 2 * k - sep.length
      · simp only [hi, if_true]
        have a1 := hget i (by omega)
        have a2 := hget (sep.length - k + i) (by omega)
        rw [a1, a2]
        congr 1
        omega
      · simp only [hi, if_false]
        rw [eq_comm, List.getElem?_eq_none_iff]
        omega

/-- Every non-empty separator with a border has two words that do not contain it and
whose join holds two occurrences of it: the separator count of C3 holds for all words
only when the separator has no border. -/
theorem separator_with_border_fails (sep : String) (hb : ¬ Unbordered sep) :
    ∃ x y : String, ¬ Contains x sep ∧ ¬ Contains y sep
      ∧ Count (Join [x, y] sep) sep = 2 := by
  unfold Unbordered at hb
  push_neg at hb
  obtain ⟨k, hk, hk0, hbk⟩ := hb
  obtain ⟨j, hj0, hj, hbj⟩ := short_border sep.data k hk0 hk hbk
  obtain ⟨h1, h2, h3⟩ := countAux_bordered sep.data j hj0 hj hbj
  refine ⟨String.mk (sep.data.take (sep.data.length - j)), String.mk (sep.data.drop j),
    h1, h2, ?_⟩
  have hne : sep ≠ "" := by
    intro h
    rw [h] at hk
    simp at hk
  unfold Count
  simp only [hne, if_false]
  rw [Join_cons_data]
  simpa using h3

theorem Unbordered_singleton (ch : Char) : Unbordered (String.singleton ch) := by
  intro k hk hpos
  have hd : (String.singleton ch).data = [ch] := rfl
  rw [hd] at hk
  simp at hk
  omega

theorem Unbordered_examples :
    Unbordered "," ∧ Unbordered " " ∧ Unbordered ", " ∧ Unbordered "->"
    ∧ ¬ Unbordered "aa" ∧ ¬ Unbordered "aba" := by
  refine ⟨by decide, by decide, by decide, by decide, by decide, by decide⟩

theorem Contains_Join_of_mem (l : List String) (sep k : String) (hk : k ∈ l) :
    Contains (Join l sep) k := by
  unfold Contains
  cases l with
  | nil => simp at hk
  | cons e rest =>
    rw [Join_cons_data]
    rcases List.mem_cons.mp hk with h | h
    · subst h
      exact (List.prefix_append _ _).isInfix
    · have h1 : sep.data ++ k.data ∈ rest.map (fun s => sep.data ++ s.data) :=
        List.mem_map.mpr ⟨k, h, rfl⟩
      have h2 : sep.data ++ k.data <:+: (rest.map (fun s => sep.data ++ s.data)).flatten :=
        List.infix_of_mem_flatten h1
      have h3 : k.data <:+: sep.data ++ k.data := (List.suffix_append _ _).isInfix
      exact (h3.trans h2).trans (List.suffix_append _ _).isInfix

theorem index_ok (dict : List String) (v : Int) (h0 : 0 ≤ v) (h1 : v < dict.length) :
    ∃ w, index dict v = Except.ok w ∧ w ∈ dict := by
  have hlt : v.toNat < dict.length := by omega
  refine ⟨dict.get ⟨v.toNat, hlt⟩, ?_, List.get_mem _ _ _⟩
  unfold index
  have : ¬ v < 0 := by omega
  simp [this, List.getElem?_eq_getElem hlt]

/-- The sampling loop with `n` iterations left to reach `count`: fed in-range samples it
ends without panic, having appended `n` words of `dict` and recorded `n` calls. -/
theorem sampleWords_spec (dict : List String) (rs : Nat → Int) (count : Int)
    (n i : Nat) (s : Sampling)
    (hleft : (i : Int) + n = count) (hs : s.panic = none)
    (hrs : ∀ j : Nat, (j : Int) < count → 0 ≤ rs j ∧ rs j < dict.length) :
    ∃ ws : List String, ws.length = n ∧ (∀ w ∈ ws, w ∈ dict)
      ∧ sampleWords dict rs count i s
        = { words := s.words ++ ws,
            calls := s.calls ++ List.replicate n (Call.IntN dict.length),
            panic := none } := by
  induction n generalizing i s with
  | zero =>
    refine ⟨[], rfl, by simp, ?_⟩
    have hi : ¬ (i : Int) < count := by omega
    cases s
    simp only at hs
    rw [sampleWords]
    simp [hi, hs]
  | succ n ih =>
    have hi : (i : Int) < count := by omega
    obtain ⟨h0, h1⟩ := hrs i hi
    obtain ⟨w, hw, hmem⟩ := index_ok dict (rs i) h0 h1
    have hI : IntN dict.length (rs i) = Except.ok (rs i) := by
      unfold IntN
      have : ¬ (dict.length : Int) ≤ 0 := by omega
      simp [this]
    obtain ⟨ws, hlen, hall, heq⟩ := ih (i + 1)
      { words := s.words ++ [w], calls := s.calls ++ [Call.IntN dict.length], panic := none }
      (by push_cast; omega) rfl
    refine ⟨w :: ws, by simp [hlen], ?_, ?_⟩
    · intro x hx
      rcases List.mem_cons.mp hx with hx | hx
      · exact hx ▸ hmem
      · exact hall x hx
    · rw [sampleWords]
      simp only [hi, if_true, hI, hw, heq]
      simp [List.replicate_succ]

/-- The sampling loop when every sample is the index `k` of the word `w`. -/
theorem sampleWords_const (dict : List String) (count : Int) (k : Nat) (w : String)
    (hk : dict.get? k = some w) (n i : Nat) (s : Sampling)
    (hleft : (i : Int) + n = count) (hs : s.panic = none) :
    sampleWords dict (fun _ => (k : Int)) count i s
      = { words := s.words ++ List.replicate n w,
          calls := s.calls ++ List.replicate n (Call.IntN dict.length),
          panic := none } := by
  have hklt : k < dict.length := by
    by_contra hge
    rw [List.get?_eq_none.mpr (by omega)] at hk
    exact absurd hk (by simp)
  have hI : IntN (dict.length : Int) (k : Int) = Except.ok (k : Int) := by
    unfold IntN
    have : ¬ (dict.length : Int) ≤ 0 := by omega
    simp [this]
  have hidx : index dict (k : Int) = Except.ok w := by
    unfold index
    have : ¬ (k : Int) < 0 := by omega
    simp only [this, if_false, Int.toNat_ofNat, hk]
  induction n generalizing i s with
  | zero =>
    have hi : ¬ (i : Int) < count := by omega
    cases s
    simp only at hs
    rw [sampleWords]
    simp [hi, hs]
  | succ n ih =>
    have hi : (i : Int) < count := by omega
    rw [sampleWords]
    simp only [hi, if_true, hI, hidx]
    rw [ih (i + 1) _ (by push_cast; omega) rfl]
    simp [List.replicate_succ]

/-! ## Results on `randInt` -/

/-- C1. For every query whose bounds satisfy `min < max` and every sample `r` with
`0 ≤ r < n`, where `n` is the bound `randInt` passed to `rand.IntN`, the handler returns
nil with status 200 and the decimal text of an integer `v` with `min ≤ v < max`, for
negative `min` as well as for non-negative `min`. -/
theorem randInt_in_range (qmin qmax : Option Int) (r n : Int)
    (hlt : QueryInt qmin 0 < QueryInt qmax 100)
    (hcall : (randInt qmin qmax r).calls = [Call.IntN n])
    (hr : 0 ≤ r ∧ r < n) :
    ∃ v : Int, randInt qmin qmax r
        = { ctx := { status := 200, body := Sprint v }, calls := [Call.IntN n], ret := Ret.nil }
      ∧ QueryInt qmin 0 ≤ v ∧ v < QueryInt qmax 100 := by
  have hmin := QueryInt_isInt qmin 0 isInt_zero
  have hmax := QueryInt_isInt qmax 100 isInt_hundred
  unfold randInt at hcall ⊢
  generalize QueryInt qmin 0 = lo at *
  generalize QueryInt qmax 100 = hi at *
  have hge : ¬ (lo ≥ hi) := by omega
  simp only [hge, if_false] at hcall ⊢
  unfold isInt minInt maxInt at hmin hmax
  by_cases hneg : lo < 0
  · simp only [hneg, if_true] at hcall ⊢
    have hn : sub (sub hi lo) 0 = n := by
      cases hI : IntN (sub (sub hi lo) 0) r <;> simp [hI] at hcall <;> exact hcall
    rw [hn]
    have hok : IntN n r = Except.ok r := by
      unfold IntN
      have : ¬ n ≤ 0 := by omega
      simp [this]
    simp only [hok]
    refine ⟨r + lo, ?_, by omega, ?_⟩
    · have : add (add r lo) 0 = r + lo := by
        unfold sub wrap at hn
        unfold add wrap
        omega
      simp [this, Ctx.fresh, Ctx.SendString]
    · unfold sub wrap at hn
      omega
  · simp only [hneg, if_false] at hcall ⊢
    have hn : sub hi lo = n := by
      cases hI : IntN (sub hi lo) r <;> simp [hI] at hcall <;> exact hcall
    rw [hn]
    have hok : IntN n r = Except.ok r := by
      unfold IntN
      have : ¬ n ≤ 0 := by omega
      simp [this]
    simp only [hok]
    refine ⟨r + lo, ?_, by omega, ?_⟩
    · have : add (add r 0) lo = r + lo := by
        unfold sub wrap at hn
        unfold add wrap
        omega
      simp [this, Ctx.fresh, Ctx.SendString]
    · unfold sub wrap at hn
      omega

/-- Witness of C1 -/
theorem randInt_in_range_witness :
    ∃ v : Int, randInt (some (-345)) (some 921) 1000
        = { ctx := { status := 200, body := Sprint v }, calls := [Call.IntN 1266], ret := Ret.nil }
      ∧ QueryInt (some (-345)) 0 ≤ v ∧ v < QueryInt (some 921) 100 :=
  randInt_in_range (some (-345)) (some 921) 1000 1266 (by decide) (by decide) (by decide)

/-- Where the validation of `randInt` holds on every query: status 400 is produced exactly
when `min ≥ max`, then with the formatted message and without drawing a sample. -/
theorem randInt_bad_request_iff (qmin qmax : Option Int) (r : Int) :
    ((randInt qmin qmax r).ctx.status = 400 ↔ QueryInt qmin 0 ≥ QueryInt qmax 100)
    ∧ (QueryInt qmin 0 ≥ QueryInt qmax 100 →
        randInt qmin qmax r
          = { ctx := { status := 400,
                       body := "min " ++ toString (QueryInt qmin 0)
                                 ++ " should be less than max " ++ toString (QueryInt qmax 100) },
              calls := [], ret := Ret.nil }) := by
  unfold randInt
  generalize QueryInt qmin 0 = lo
  generalize QueryInt qmax 100 = hi
  by_cases h : lo ≥ hi
  · simp [h, Ctx.fresh, Ctx.SendStatus, Ctx.SendString]
  · simp only [h, if_false]
    constructor
    · cases hI : IntN _ r <;> simp [Ctx.fresh, Ctx.SendString]
    · intro h2
      exact h2.elim

theorem randInt_valid_range (qmin qmax : Option Int) (r : Int)
    (hlt : QueryInt qmin 0 < QueryInt qmax 100) :
    (randInt qmin qmax r).ctx.status = 200
    ∧ (QueryInt qmax 100 - QueryInt qmin 0 ≤ maxInt →
        (randInt qmin qmax r).ret = Ret.nil
        ∧ (randInt qmin qmax r).calls = [Call.IntN (QueryInt qmax 100 - QueryInt qmin 0)]
        ∧ isDecimalInteger (randInt qmin qmax r).ctx.body = true)
    ∧ (maxInt < QueryInt qmax 100 - QueryInt qmin 0 →
        (randInt qmin qmax r).ret = Ret.panic "invalid argument to IntN") := by
  have hmin := QueryInt_isInt qmin 0 isInt_zero
  have hmax := QueryInt_isInt qmax 100 isInt_hundred
  unfold randInt
  generalize QueryInt qmin 0 = lo at *
  generalize QueryInt qmax 100 = hi at *
  have hge : ¬ (lo ≥ hi) := by omega
  simp only [hge, if_false]
  unfold isInt minInt maxInt at hmin hmax
  unfold maxInt
  have hbound : (if lo < 0 then sub (sub hi lo) 0 else sub hi lo) = wrap (hi - lo) := by
    by_cases hneg : lo < 0
    · simp only [hneg, if_true]
      unfold sub wrap
      omega
    · simp only [hneg, if_false]
      rfl
  have hb : sub (if lo < 0 then sub hi (if lo < 0 then lo else 0) else hi)
      (if lo < 0 then 0 else lo) = wrap (hi - lo) := by
    rw [← hbound]
    by_cases hneg : lo < 0 <;> simp [hneg]
  rw [hb]
  refine ⟨?_, ?_, ?_⟩
  · cases hI : IntN (wrap (hi - lo)) r <;> simp [Ctx.fresh, Ctx.SendString]
  · intro hno
    have hw : wrap (hi - lo) = hi - lo := by
      unfold wrap
      omega
    have hok : IntN (wrap (hi - lo)) r = Except.ok r := by
      unfold IntN
      have : ¬ wrap (hi - lo) ≤ 0 := by omega
      simp [this]
    simp only [hok]
    refine ⟨trivial, ?_, ?_⟩
    · rw [hw]
    · simp only [Ctx.SendString, Sprint]
      exact isDecimalInteger_toString _
  · intro hov
    have herr : IntN (wrap (hi - lo)) r = Except.error "invalid argument to IntN" := by
      unfold IntN
      have : wrap (hi - lo) ≤ 0 := by
        unfold wrap
        omega
      simp [this]
    simp only [herr]

/-- C9 (the code at the failing input). For `min=-1` and `max=9223372036854775807` the
shift computes `max - offset`, which wraps; the bound handed to `rand.IntN` is
`-9223372036854775808`, not positive, and the handler panics whatever the source holds. -/
theorem randInt_bound_not_positive (r : Int) :
    isInt (-1) ∧ isInt 9223372036854775807 ∧ (-1 : Int) < 9223372036854775807
    ∧ (randInt (some (-1)) (some 9223372036854775807) r).calls
        = [Call.IntN (-9223372036854775808)]
    ∧ ¬ (0 : Int) < -9223372036854775808
    ∧ (randInt (some (-1)) (some 9223372036854775807) r).ret
        = Ret.panic "invalid argument to IntN" := by
  refine ⟨by decide, by decide, by decide, ?_, by decide, ?_⟩
  · unfold randInt IntN
    have h1 : QueryInt (some (-1)) 0 = -1 := by decide
    have h2 : QueryInt (some 9223372036854775807) 100 = 9223372036854775807 := by decide
    have h3 : sub (sub 9223372036854775807 (-1)) 0 = -9223372036854775808 := by decide
    simp [h1, h2, h3]
  · unfold randInt IntN
    have h1 : QueryInt (some (-1)) 0 = -1 := by decide
    have h2 : QueryInt (some 9223372036854775807) 100 = 9223372036854775807 := by decide
    have h3 : sub (sub 9223372036854775807 (-1)) 0 = -9223372036854775808 := by decide
    simp [h1, h2, h3]

/-- C2 (the code at the failing input). For `min=-1` and `max=9223372036854775807`, which
satisfy `min < max`, no decimal integer is written: the handler panics with an empty body
and the client receives status 500 with the text of the panic. -/
theorem randInt_no_decimal_body (r : Int) :
    QueryInt (some (-1)) 0 < QueryInt (some 9223372036854775807) 100
    ∧ (randInt (some (-1)) (some 9223372036854775807) r).ctx = { status := 200, body := "" }
    ∧ respond (randInt (some (-1)) (some 9223372036854775807) r)
        = { status := 500, body := "invalid argument to IntN" }
    ∧ isDecimalInteger (respond (randInt (some (-1)) (some 9223372036854775807) r)).body
        = false := by
  have h1 : QueryInt (some (-1)) 0 = -1 := by decide
  have h2 : QueryInt (some 9223372036854775807) 100 = 9223372036854775807 := by decide
  have h3 : sub (sub 9223372036854775807 (-1)) 0 = -9223372036854775808 := by decide
  have hrun : randInt (some (-1)) (some 9223372036854775807) r
      = { ctx := { status := 200, body := "" }, calls := [Call.IntN (-9223372036854775808)],
          ret := Ret.panic "invalid argument to IntN" } := by
    unfold randInt IntN
    simp [h1, h2, h3, Ctx.fresh]
  rw [hrun]
  refine ⟨by decide, rfl, rfl, by decide⟩

/-- C8 (the code at the failing input). With `min` absent and `max` absent (100) or
`max=300`, the sample 0 yields the body `0`, which is below 1. -/
theorem randInt_default_yields_zero :
    randInt none none 0
      = { ctx := { status := 200, body := "0" }, calls := [Call.IntN 100], ret := Ret.nil }
    ∧ randInt none (some 300) 0
      = { ctx := { status := 200, body := "0" }, calls := [Call.IntN 300], ret := Ret.nil }
    ∧ Sprint 0 = "0" ∧ ¬ (1 : Int) ≤ 0 := by
  refine ⟨by decide, by decide, by decide, by decide⟩

/-! ## Results on `randWord` -/

/-- C3 (as amended). For a known category (the lookup in `Dictionaries` yields `dict`) and
a `count` with `0 ≤ count ≤ 17592186044416` (`2^44`, the largest capacity `make` accepts
for a slice of strings): `dict` is non-empty, so sampling is well-defined, and for every
separator and every sequence of in-range index samples the handler returns nil with
status 200 and a body that is the join, with the separator, of exactly `count` words that
all belong to `dict`, after exactly `count` calls of `rand.IntN(len(dict))`.  When the
separator cannot overlap itself (it has no border), no chosen word contains the separator
and `count ≥ 1`, the body holds exactly `count - 1` occurrences of the separator. -/
theorem randWord_known_category (f : Files) (visit : List (String × List String))
    (rawCategory : String) (qcount : Option Int) (rawSeparator : String)
    (dict : List String)
    (hcat : (Dictionaries f).lookup (Query rawCategory "words") = some dict)
    (hcount : 0 ≤ QueryInt qcount 1 ∧ QueryInt qcount 1 ≤ 17592186044416) :
    dict ≠ [] ∧
    ∀ rs : Nat → Int,
      (∀ j : Nat, (j : Int) < QueryInt qcount 1 → 0 ≤ rs j ∧ rs j < dict.length) →
      ∃ words : List String,
        (words.length : Int) = QueryInt qcount 1
        ∧ (∀ w ∈ words, w ∈ dict)
        ∧ randWord f visit rawCategory qcount rawSeparator rs
            = { ctx := { status := 200, body := Join words (Query rawSeparator " ") },
                calls := List.replicate words.length (Call.IntN dict.length),
                ret := Ret.nil }
        ∧ (Unbordered (Query rawSeparator " ") →
            (∀ w ∈ words, ¬ Contains w (Query rawSeparator " ")) →
            1 ≤ QueryInt qcount 1 →
            (Count (Join words (Query rawSeparator " ")) (Query rawSeparator " ") : Int)
              = QueryInt qcount 1 - 1) := by
  refine ⟨Dictionaries_lookup_ne_nil f _ dict hcat, ?_⟩
  intro rs hrs
  obtain ⟨ws, hlen, hall, heq⟩ := sampleWords_spec dict rs (QueryInt qcount 1)
    (QueryInt qcount 1).toNat 0 { words := [], calls := [], panic := none }
    (by push_cast; omega) rfl hrs
  refine ⟨ws, by omega, hall, ?_, ?_⟩
  · unfold randWord
    have hmk : makeSlice (QueryInt qcount 1) = Except.ok [] :=
      (makeSlice_ok_iff _).mpr hcount
    simp only [hcat, hmk, heq]
    simp [Ctx.fresh, Ctx.SendString, hlen]
  · intro hunb hno hone
    have hne : ws ≠ [] := by
      intro h
      rw [h] at hlen
      simp at hlen
      omega
    rw [Count_Join_unbordered _ (Query_ne_empty rawSeparator " " (by decide)) hunb ws hne hno]
    omega

/-- Witness of C3 -/
theorem randWord_known_category_witness :
    Split demoFiles.animals '\n' ≠ [] ∧
    ∃ words : List String,
      (words.length : Int) = QueryInt (some 5) 1
      ∧ (∀ w ∈ words, w ∈ Split demoFiles.animals '\n')
      ∧ randWord demoFiles (Dictionaries demoFiles) "animals" (some 5) ", " (fun _ => 1)
          = { ctx := { status := 200, body := Join words (Query ", " " ") },
              calls := List.replicate words.length
                (Call.IntN (Split demoFiles.animals '\n').length),
              ret := Ret.nil }
      ∧ (Unbordered (Query ", " " ") →
          (∀ w ∈ words, ¬ Contains w (Query ", " " ")) →
          1 ≤ QueryInt (some 5) 1 →
          (Count (Join words (Query ", " " ")) (Query ", " " ") : Int)
            = QueryInt (some 5) 1 - 1) :=
  ⟨(randWord_known_category demoFiles (Dictionaries demoFiles) "animals" (some 5) ", "
      (Split demoFiles.animals '\n') (by decide) (by decide)).1,
   (randWord_known_category demoFiles (Dictionaries demoFiles) "animals" (some 5) ", "
      (Split demoFiles.animals '\n') (by decide) (by decide)).2 (fun _ => 1)
      (fun _ _ => (by decide :
        (0 : Int) ≤ 1 ∧ (1 : Int) < ((Split demoFiles.animals '\n').length : Int)))⟩

/-- The separator count of C3 fails for every dictionary that holds a non-empty word `w`
(at index `k`): with `count=2`, the separator `ww` and both samples `k`, the handler joins
`w` and `w`, neither contains the separator, and the body holds two occurrences of it. -/
theorem randWord_separator_count_fails (f : Files) (visit : List (String × List String))
    (rawCategory : String) (dict : List String) (k : Nat) (w : String)
    (hcat : (Dictionaries f).lookup (Query rawCategory "words") = some dict)
    (hk : dict.get? k = some w) (hw : w ≠ "") :
    randWord f visit rawCategory (some 2) (w ++ w) (fun _ => k)
      = { ctx := { status := 200, body := Join [w, w] (w ++ w) },
          calls := [Call.IntN dict.length, Call.IntN dict.length], ret := Ret.nil }
    ∧ ¬ Contains w (w ++ w)
    ∧ Count (Join [w, w] (w ++ w)) (w ++ w) = 2 := by
  refine ⟨?_, (Count_Join_doubled w hw).1, (Count_Join_doubled w hw).2⟩
  have hq : Query (w ++ w) " " = w ++ w := by
    unfold Query
    have hne : w ++ w ≠ "" := by
      intro h
      have := congrArg String.data h
      simp [String.data_append] at this
      exact data_ne_nil w hw this
    simp [hne]
  have hc : QueryInt (some 2) 1 = 2 := by decide
  have hmk : makeSlice 2 = Except.ok [] := (makeSlice_ok_iff 2).mpr (by decide)
  have hloop := sampleWords_const dict 2 k w hk 2 0
    { words := [], calls := [], panic := none } (by norm_num) rfl
  unfold randWord
  simp only [hcat, hc, hq, hmk, hloop]
  simp [Ctx.fresh, Ctx.SendString, List.replicate]

/-- C3 (counterexample to the claim as stated). With a word list whose first word is `a`,
`count=2`, `separator=aa` and both samples 0, the chosen words are `a` and `a`, neither
contains the separator, and the body `aaaa` holds 2 occurrences of it, not `count - 1`. -/
theorem randWord_separator_count_counterexample :
    randWord demoFiles (Dictionaries demoFiles) "" (some 2) "aa" (fun _ => 0)
      = { ctx := { status := 200, body := Join ["a", "a"] "aa" },
          calls := [Call.IntN 4, Call.IntN 4], ret := Ret.nil }
    ∧ (∀ w ∈ ["a", "a"], ¬ Contains w "aa")
    ∧ Join ["a", "a"] "aa" = "aaaa"
    ∧ Count (Join ["a", "a"] "aa") "aa" = 2
    ∧ ¬ ((Count (Join ["a", "a"] "aa") "aa" : Int) = QueryInt (some 2) 1 - 1) := by
  refine ⟨?_, by decide, by decide, by decide, by decide⟩
  have h := (randWord_separator_count_fails demoFiles (Dictionaries demoFiles) ""
    (Split demoFiles.words '\n') 0 "a" (by decide) (by decide) (by decide)).1
  have hlen : (Split demoFiles.words '\n').length = 4 := by decide
  have hsep : ("a" : String) ++ "a" = "aa" := by decide
  rw [hlen, hsep] at h
  exact h

/-- For a known category and a `count` above `2^44`, such as `9223372036854775807`,
`make([]string, 0, count)` panics: the handler writes no body and draws no sample. -/
theorem randWord_count_too_large (f : Files) (visit : List (String × List String))
    (rawCategory : String) (qcount : Option Int) (rawSeparator : String) (rs : Nat → Int)
    (dict : List String)
    (hcat : (Dictionaries f).lookup (Query rawCategory "words") = some dict)
    (hbig : 17592186044416 < QueryInt qcount 1) :
    randWord f visit rawCategory qcount rawSeparator rs
      = { ctx := { status := 200, body := "" }, calls := [],
          ret := Ret.panic "runtime error: makeslice: cap out of range" } := by
  have hmk : makeSlice (QueryInt qcount 1)
      = Except.error "runtime error: makeslice: cap out of range" := by
    unfold makeSlice maxAlloc
    have : QueryInt qcount 1 < 0 ∨ 16 * QueryInt qcount 1 > 281474976710656 := by omega
    simp only [this, if_true]
  unfold randWord
  simp only [hcat, hmk]
  simp [Ctx.fresh]

/-- C5. For a category that is none of the eight keys of `Dictionaries`, and `Keys` built
by `mapKeys` from any order in which `range` can walk the map, the handler returns nil with
status 400 and the body `Invalid category, must be one of ` followed by `Keys` joined with
`, `, without drawing a sample; `Keys` holds every key of `Dictionaries` exactly once and
nothing else, and every category name occurs in the body. -/
theorem randWord_unknown_category (f : Files) (visit : List (String × List String))
    (rawCategory : String) (qcount : Option Int) (rawSeparator : String) (rs : Nat → Int)
    (hvisit : visit.Perm (Dictionaries f))
    (hcat : Query rawCategory "words" ∉ categories) :
    randWord f visit rawCategory qcount rawSeparator rs
      = { ctx := { status := 400,
                   body := "Invalid category, must be one of " ++ Join (Keys visit) ", " },
          calls := [], ret := Ret.nil }
    ∧ (Dictionaries f).map Prod.fst = categories
    ∧ (Keys visit).Perm categories
    ∧ (Keys visit).Nodup
    ∧ (∀ k : String, k ∈ Keys visit ↔ k ∈ categories)
    ∧ (∀ k ∈ categories,
        Contains (randWord f visit rawCategory qcount rawSeparator rs).ctx.body k) := by
  have hkeys : Keys visit = visit.map Prod.fst := mapKeys_eq visit
  have hperm : (Keys visit).Perm categories := by
    rw [hkeys, ← Dictionaries_keys f]
    exact hvisit.map _
  have hrun : randWord f visit rawCategory qcount rawSeparator rs
      = { ctx := { status := 400,
                   body := "Invalid category, must be one of " ++ Join (Keys visit) ", " },
          calls := [], ret := Ret.nil } := by
    unfold randWord
    have hnone : (Dictionaries f).lookup (Query rawCategory "words") = none :=
      lookup_eq_none_of_not_mem _ _ (by rw [Dictionaries_keys]; exact hcat)
    simp only [hnone]
    simp [Ctx.fresh, Ctx.SendStatus, Ctx.SendString]
  have hmem : ∀ k : String, k ∈ Keys visit ↔ k ∈ categories := by
    intro k
    rw [hperm.mem_iff]
  refine ⟨hrun, Dictionaries_keys f, hperm, ?_, hmem, ?_⟩
  · rw [hperm.nodup_iff]
    decide
  · intro k hk
    rw [hrun]
    have h1 : Contains (Join (Keys visit) ", ") k :=
      Contains_Join_of_mem _ _ _ ((hmem k).mpr hk)
    unfold Contains at h1 ⊢
    simp only [String.data_append]
    exact h1.trans (List.suffix_append _ _).isInfix

/-- Witness of C5 -/
theorem randWord_unknown_category_witness :
    randWord demoFiles (Dictionaries demoFiles).reverse "colours" none "" (fun _ => 0)
      = { ctx := { status := 400,
                   body := "Invalid category, must be one of "
                     ++ Join (Keys (Dictionaries demoFiles).reverse) ", " },
          calls := [], ret := Ret.nil }
    ∧ (Dictionaries demoFiles).map Prod.fst = categories
    ∧ (Keys (Dictionaries demoFiles).reverse).Perm categories
    ∧ (Keys (Dictionaries demoFiles).reverse).Nodup
    ∧ (∀ k : String, k ∈ Keys (Dictionaries demoFiles).reverse ↔ k ∈ categories)
    ∧ (∀ k ∈ categories,
        Contains (randWord demoFiles (Dictionaries demoFiles).reverse "colours" none ""
          (fun _ => 0)).ctx.body k) :=
  randWord_unknown_category demoFiles (Dictionaries demoFiles).reverse "colours" none ""
    (fun _ => 0) (List.reverse_perm _) (by decide)

/-- C10 (the code at the failing input). For the known category `words` and `count=-1`,
whatever the files, the separator and the random source, `make([]string, 0, count)` panics:
the handler writes no body and draws no sample, and the client receives status 500. -/
theorem randWord_negative_count_panics (f : Files) (visit : List (String × List String))
    (rawSeparator : String) (rs : Nat → Int) :
    (∃ dict, (Dictionaries f).lookup (Query "words" "words") = some dict)
    ∧ randWord f visit "words" (some (-1)) rawSeparator rs
      = { ctx := { status := 200, body := "" }, calls := [],
          ret := Ret.panic "runtime error: makeslice: cap out of range" }
    ∧ respond (randWord f visit "words" (some (-1)) rawSeparator rs)
      = { status := 500, body := "runtime error: makeslice: cap out of range" } := by
  have hq : Query "words" "words" = "words" := by decide
  have hc : QueryInt (some (-1)) 1 = -1 := by decide
  have hl : (Dictionaries f).lookup "words" = some (Split f.words '\n') := by
    unfold Dictionaries
    simp [List.lookup]
  have hrun : randWord f visit "words" (some (-1)) rawSeparator rs
      = { ctx := { status := 200, body := "" }, calls := [],
          ret := Ret.panic "runtime error: makeslice: cap out of range" } := by
    unfold randWord
    simp only [hq, hc, hl]
    simp [makeSlice, Ctx.fresh]
  refine ⟨⟨_, hq ▸ hl⟩, hrun, ?_⟩
  rw [hrun]
  rfl

/-- For a known category and any negative `count`, `make([]string, 0, count)` panics. -/
theorem randWord_count_negative (f : Files) (visit : List (String × List String))
    (rawCategory : String) (qcount : Option Int) (rawSeparator : String) (rs : Nat → Int)
    (dict : List String)
    (hcat : (Dictionaries f).lookup (Query rawCategory "words") = some dict)
    (hneg : QueryInt qcount 1 < 0) :
    randWord f visit rawCategory qcount rawSeparator rs
      = { ctx := { status := 200, body := "" }, calls := [],
          ret := Ret.panic "runtime error: makeslice: cap out of range" } := by
  unfold randWord
  simp only [hcat]
  simp [makeSlice, hneg, Ctx.fresh]

/-- Where C10 holds: for a known category and `count = 0` the handler returns nil with
status 200 and the empty body. -/
theorem randWord_zero_count (f : Files) (visit : List (String × List String))
    (rawCategory : String) (rawSeparator : String) (rs : Nat → Int) (dict : List String)
    (hcat : (Dictionaries f).lookup (Query rawCategory "words") = some dict) :
    randWord f visit rawCategory (some 0) rawSeparator rs
      = { ctx := { status := 200, body := "" }, calls := [], ret := Ret.nil } := by
  have hc : QueryInt (some 0) 1 = 0 := by decide
  have hmk : makeSlice 0 = Except.ok [] := (makeSlice_ok_iff 0).mpr (by decide)
  unfold randWord
  simp only [hcat, hc, hmk]
  rw [sampleWords]
  simp [Ctx.fresh, Ctx.SendString, Join]

/-! ## Results on `randDice` -/

/-- C4 (the code at the failing input). For `input=4df` and `output=invalid`, with the
notation accepted by the dice library (whatever the roll), the handler sends nothing and
returns an error: the status it leaves is 200, not 400, and the client receives
status 500. -/
theorem randDice_bad_output_not_400 (result : RollResult) :
    randDice (fun _ => Rolled.ok result) "4df" "invalid"
      = { ctx := { status := 200, body := "" }, calls := [Call.Roll "4df"],
          ret := Ret.err "invalid output, must be sum or full" }
    ∧ respond (randDice (fun _ => Rolled.ok result) "4df" "invalid")
      = { status := 500, body := "invalid output, must be sum or full" }
    ∧ (respond (randDice (fun _ => Rolled.ok result) "4df" "invalid")).status ≠ 400 := by
  have hi : Query "4df" "1d6" = "4df" := by decide
  have ho : Query "invalid" "sum" = "invalid" := by decide
  have hrun : randDice (fun _ => Rolled.ok result) "4df" "invalid"
      = { ctx := { status := 200, body := "" }, calls := [Call.Roll "4df"],
          ret := Ret.err "invalid output, must be sum or full" } := by
    unfold randDice
    simp only [hi, ho]
    have hlen : ¬ ("4df".utf8ByteSize = 0 ∨ "4df".utf8ByteSize > 100) := by decide
    have h1 : ¬ ("invalid" = "sum") := by decide
    have h2 : ¬ ("invalid" = "full") := by decide
    simp [hlen, h1, h2, Ctx.fresh]
  rw [hrun]
  refine ⟨rfl, rfl, by decide⟩

/-- Where C4 holds: a notation of 1 to 100 bytes that the dice library rejects is
answered with status 400 and the library's message, whatever the output mode. -/
theorem randDice_rejected_notation (Roll : String → Rolled)
    (rawInput rawOutput err : String)
    (hlen : ¬ ((Query rawInput "1d6").utf8ByteSize = 0
      ∨ (Query rawInput "1d6").utf8ByteSize > 100))
    (hrej : Roll (Query rawInput "1d6") = Rolled.error err) :
    randDice Roll rawInput rawOutput
      = { ctx := { status := 400, body := err }, calls := [Call.Roll (Query rawInput "1d6")],
          ret := Ret.nil } := by
  unfold randDice
  simp only [hlen, if_false, hrej]
  simp [Ctx.fresh, Ctx.SendStatus, Ctx.SendString]

/-- A panic inside `dice.Roll` ends the handler with that panic, after the call and
without a body; the client receives status 500. -/
theorem randDice_roll_panics (Roll : String → Rolled) (rawInput rawOutput msg : String)
    (hlen : ¬ ((Query rawInput "1d6").utf8ByteSize = 0
      ∨ (Query rawInput "1d6").utf8ByteSize > 100))
    (hpanic : Roll (Query rawInput "1d6") = Rolled.panic msg) :
    randDice Roll rawInput rawOutput
      = { ctx := { status := 200, body := "" }, calls := [Call.Roll (Query rawInput "1d6")],
          ret := Ret.panic msg }
    ∧ respond (randDice Roll rawInput rawOutput) = { status := 500, body := msg } := by
  have hrun : randDice Roll rawInput rawOutput
      = { ctx := { status := 200, body := "" }, calls := [Call.Roll (Query rawInput "1d6")],
          ret := Ret.panic msg } := by
    unfold randDice
    simp only [hlen, if_false, hpanic]
    simp [Ctx.fresh]
  rw [hrun]
  exact ⟨rfl, rfl⟩

/-! ## Results on `randNanoId` -/

/-- C6. For every size: status 400 is produced exactly when `size < 1` or `size > 200`,
then with the body `Invalid size, must be between 1 and 200` and without calling the
generator (so 0 and 201 are rejected, 1 and 200 are not); for `1 ≤ size ≤ 200` the
generator is called once, with exactly that size, the identifier it returns is the body
with status 200, and an error it returns is returned by the handler. -/
theorem randNanoId_size_validation (ID : Int → Except String String) (qsize : Option Int) :
    ((randNanoId ID qsize).ctx.status = 400 ↔ (QueryInt qsize 21 < 1 ∨ QueryInt qsize 21 > 200))
    ∧ ((QueryInt qsize 21 < 1 ∨ QueryInt qsize 21 > 200) →
        randNanoId ID qsize
          = { ctx := { status := 400, body := "Invalid size, must be between 1 and 200" },
              calls := [], ret := Ret.nil })
    ∧ ((1 ≤ QueryInt qsize 21 ∧ QueryInt qsize 21 ≤ 200) →
        (randNanoId ID qsize).calls = [Call.ID (QueryInt qsize 21)]
        ∧ (∀ id, ID (QueryInt qsize 21) = Except.ok id →
            randNanoId ID qsize
              = { ctx := { status := 200, body := id },
                  calls := [Call.ID (QueryInt qsize 21)], ret := Ret.nil })
        ∧ (∀ err, ID (QueryInt qsize 21) = Except.error err →
            randNanoId ID qsize
              = { ctx := { status := 200, body := "" },
                  calls := [Call.ID (QueryInt qsize 21)], ret := Ret.err err }))
    ∧ (randNanoId ID (some 0)).ctx.status = 400
    ∧ (randNanoId ID (some 201)).ctx.status = 400
    ∧ (randNanoId ID (some 1)).ctx.status = 200
    ∧ (randNanoId ID (some 200)).ctx.status = 200 := by
  have key : ∀ q : Option Int,
      ((randNanoId ID q).ctx.status = 400 ↔ (QueryInt q 21 < 1 ∨ QueryInt q 21 > 200))
      ∧ ((QueryInt q 21 < 1 ∨ QueryInt q 21 > 200) →
          randNanoId ID q
            = { ctx := { status := 400, body := "Invalid size, must be between 1 and 200" },
                calls := [], ret := Ret.nil })
      ∧ ((1 ≤ QueryInt q 21 ∧ QueryInt q 21 ≤ 200) →
          (randNanoId ID q).ctx.status = 200
          ∧ (randNanoId ID q).calls = [Call.ID (QueryInt q 21)]
          ∧ (∀ id, ID (QueryInt q 21) = Except.ok id →
              randNanoId ID q
                = { ctx := { status := 200, body := id },
                    calls := [Call.ID (QueryInt q 21)], ret := Ret.nil })
          ∧ (∀ err, ID (QueryInt q 21) = Except.error err →
              randNanoId ID q
                = { ctx := { status := 200, body := "" },
                    calls := [Call.ID (QueryInt q 21)], ret := Ret.err err })) := by
    intro q
    unfold randNanoId
    generalize QueryInt q 21 = size
    by_cases h : size < 1 ∨ size > 200
    · simp only [h, if_true]
      refine ⟨by simp [Ctx.fresh, Ctx.SendStatus, Ctx.SendString],
        fun _ => by simp [Ctx.fresh, Ctx.SendStatus, Ctx.SendString], fun h2 => ?_⟩
      omega
    · simp only [h, if_false]
      refine ⟨?_, fun h2 => absurd h2 (by simp), fun _ => ?_⟩
      · cases hI : ID size <;> simp [Ctx.fresh, Ctx.SendString]
      · cases hI : ID size <;> simp [Ctx.fresh, Ctx.SendString]
  obtain ⟨h1, h2, h3⟩ := key qsize
  refine ⟨h1, h2, fun h => ⟨(h3 h).2.1, (h3 h).2.2.1, (h3 h).2.2.2⟩, ?_, ?_, ?_, ?_⟩
  · exact (key (some 0)).1.mpr (by decide)
  · exact (key (some 201)).1.mpr (by decide)
  · exact ((key (some 1)).2.2 (by decide)).1
  · exact ((key (some 200)).2.2 (by decide)).1

/-! ## Results on `randUuid` -/

/-- C7. For every version other than `4` and `7` the handler answers status 400 with a body
containing `Invalid UUID version` and calls no generator; for version `4` it calls exactly
`uuid.NewRandom`, for version `7` exactly `uuid.NewV7`, and when the generator succeeds the
body is the canonical string of that identifier and the status stays 200. -/
theorem randUuid_version_validation {U : Type} (NewRandom NewV7 : Except String U)
    (str : U → String) (rawVersion : String) :
    ((Query rawVersion "4" ≠ "4" ∧ Query rawVersion "4" ≠ "7") →
      randUuid NewRandom NewV7 str rawVersion
        = { ctx := { status := 400, body := "Invalid UUID version, must be 4 or 7" },
            calls := [], ret := Ret.nil }
      ∧ Contains (randUuid NewRandom NewV7 str rawVersion).ctx.body "Invalid UUID version")
    ∧ (Query rawVersion "4" = "4" →
        (randUuid NewRandom NewV7 str rawVersion).calls = [Call.NewRandom]
        ∧ ∀ id, NewRandom = Except.ok id →
            randUuid NewRandom NewV7 str rawVersion
              = { ctx := { status := 200, body := str id }, calls := [Call.NewRandom],
                  ret := Ret.nil })
    ∧ (Query rawVersion "4" = "7" →
        (randUuid NewRandom NewV7 str rawVersion).calls = [Call.NewV7]
        ∧ ∀ id, NewV7 = Except.ok id →
            randUuid NewRandom NewV7 str rawVersion
              = { ctx := { status := 200, body := str id }, calls := [Call.NewV7],
                  ret := Ret.nil }) := by
  unfold randUuid
  generalize Query rawVersion "4" = version
  refine ⟨?_, ?_, ?_⟩
  · rintro ⟨h4, h7⟩
    simp only [h4, h7, if_false]
    refine ⟨by simp [Ctx.fresh, Ctx.SendStatus, Ctx.SendString], ?_⟩
    simp only [Ctx.SendString]
    decide
  · intro h4
    subst h4
    simp only [if_true]
    cases NewRandom <;> simp [Ctx.fresh, Ctx.SendString]
  · intro h7
    subst h7
    have : ¬ ("7" = "4") := by decide
    simp only [this, if_false, if_true]
    cases NewV7 <;> simp [Ctx.fresh, Ctx.SendString]

end RandomApi
